import Mathlib

/-!
Verification of `enrich_work_values.py` (WorkLocomotion/add_work_values).

Shallow embedding: Python strings are `List Char` (for SOC-code material) or
Lean `String` (for header names); pandas frames are Lean lists of records;
fallible steps return `Except`/`Option`.  Every definition is translated from
the repository source; pandas primitives (left merge with `validate`,
`drop_duplicates`, stable multi-key `sort_values`, `groupby(...).tail(1)`,
`pivot_table`) are modelled by their documented semantics on lists.
-/

namespace EWV

/-- Code points Python's `str.strip()` removes (`str.isspace` characters). -/
def isPySpace (c : Char) : Bool :=
  let n := c.toNat
  (9 ≤ n && n ≤ 13) || n = 32 || (28 ≤ n && n ≤ 31) || n = 133 || n = 160 ||
    n = 5760 || (8192 ≤ n && n ≤ 8202) || n = 8232 || n = 8233 || n = 8239 ||
    n = 8287 || n = 12288

/-- The character class kept by `re.sub(r"[^0-9]", "", s)`: ASCII digits. -/
def isDigitC (c : Char) : Bool :=
  48 ≤ c.toNat && c.toNat ≤ 57

/-- Python `s.strip()`: drop leading and trailing whitespace. -/
def pyStrip (l : List Char) : List Char :=
  ((l.dropWhile isPySpace).reverse.dropWhile isPySpace).reverse

/-- Digit content of an input as `norm_soc` computes it: the stripped string
with every non-digit removed (`re.sub(r"[^0-9]", "", s)`). -/
def digitsOf (l : List Char) : List Char :=
  (pyStrip l).filter isDigitC

/-- `norm_soc` (source lines 44-59) on a string input. -/
def norm_soc (l : List Char) : List Char :=
  if pyStrip l = [] then []
  else if 7 ≤ (digitsOf l).length then
    (digitsOf l).take 2 ++ '-' :: (((digitsOf l).drop 2).take 5 ++
      (if (digitsOf l).drop 7 = [] then [] else '-' :: (digitsOf l).drop 7))
  else if (digitsOf l).length = 5 ∨ (digitsOf l).length = 6 then
    (digitsOf l).take 2 ++ '-' :: (digitsOf l).drop 2
  else pyStrip l

/-- `norm_soc` on an arbitrary cell: a missing value (`none`, pandas `NaN`)
is mapped to the empty string by lines 46-47 of the source. -/
def normSocCell (x : Option (List Char)) : List Char :=
  match x with
  | none => []
  | some s => norm_soc s

example : norm_soc "131081".data = "13-1081".data := by decide
example : norm_soc " 13-1081.00 ".data = "13-10810-0".data := by decide
example : norm_soc "13-1081".data = "13-1081".data := by decide
example : norm_soc "12345".data = "12-345".data := by decide
example : norm_soc "1234".data = "1234".data := by decide
example : norm_soc "  ab12  ".data = "ab12".data := by decide

/-! ### Basic facts about `pyStrip` and `digitsOf` -/

theorem dropWhile_of_forall_not (p : Char → Bool) (l : List Char)
    (h : ∀ a ∈ l, p a = false) : l.dropWhile p = l := by
  cases l with
  | nil => rfl
  | cons a t =>
    exact List.dropWhile_cons_of_neg (by simp [h a (List.mem_cons_self a t)])

theorem dropWhile_self (p : Char → Bool) (l : List Char) :
    (l.dropWhile p).dropWhile p = l.dropWhile p := by
  cases hn : l.dropWhile p with
  | nil => rfl
  | cons a t =>
    have hpa : p a = false := by
      have hh := List.head?_dropWhile_not p l
      rw [hn] at hh
      simpa using hh
    exact List.dropWhile_cons_of_neg (by simp [hpa])

theorem pyStrip_eq_self (l : List Char) (h : ∀ c ∈ l, isPySpace c = false) :
    pyStrip l = l := by
  unfold pyStrip
  rw [dropWhile_of_forall_not _ _ h,
    dropWhile_of_forall_not _ _ (by intro c hc; exact h c (by simpa using hc)),
    List.reverse_reverse]

theorem pyStrip_idem (l : List Char) : pyStrip (pyStrip l) = pyStrip l := by
  have h1 : (pyStrip l).dropWhile isPySpace = pyStrip l := by
    cases hn : pyStrip l with
    | nil => rfl
    | cons a t =>
      have hm : l.dropWhile isPySpace =
          pyStrip l ++ ((l.dropWhile isPySpace).reverse.takeWhile isPySpace).reverse := by
        conv_lhs => rw [← List.reverse_reverse (l.dropWhile isPySpace),
          ← List.takeWhile_append_dropWhile isPySpace (l.dropWhile isPySpace).reverse]
        rw [List.reverse_append]
        rfl
      rw [hn, List.cons_append] at hm
      have hpa : isPySpace a = false := by
        have hh := List.head?_dropWhile_not isPySpace l
        rw [hm] at hh
        simpa using hh
      rw [List.dropWhile_cons_of_neg (by simp [hpa])]
  have h2 : (pyStrip l).reverse.dropWhile isPySpace = (pyStrip l).reverse := by
    have hrev : (pyStrip l).reverse = (l.dropWhile isPySpace).reverse.dropWhile isPySpace := by
      unfold pyStrip; rw [List.reverse_reverse]
    rw [hrev]; exact dropWhile_self _ _
  show ((((pyStrip l).dropWhile isPySpace).reverse).dropWhile isPySpace).reverse = pyStrip l
  rw [h1, h2, List.reverse_reverse]

theorem isDigitC_not_space (c : Char) (h : isDigitC c = true) : isPySpace c = false := by
  unfold isDigitC at h
  unfold isPySpace
  simp only [Bool.and_eq_true, decide_eq_true_eq] at h
  simp only [Bool.or_eq_false_iff, Bool.and_eq_false_iff, decide_eq_false_iff_not]
  omega

theorem digitsOf_of_strip_nil {l : List Char} (h : pyStrip l = []) : digitsOf l = [] := by
  unfold digitsOf; rw [h]; rfl

/-! ### The three branches of `norm_soc` -/

theorem norm_soc_of_strip_nil {l : List Char} (h : pyStrip l = []) : norm_soc l = [] := by
  unfold norm_soc; rw [if_pos h]

theorem norm_soc_of_seven {l : List Char} (h : 7 ≤ (digitsOf l).length) :
    norm_soc l = (digitsOf l).take 2 ++ '-' :: (((digitsOf l).drop 2).take 5 ++
      (if (digitsOf l).drop 7 = [] then [] else '-' :: (digitsOf l).drop 7)) := by
  have hs : pyStrip l ≠ [] := by
    intro he
    rw [digitsOf_of_strip_nil he] at h
    simp at h
  unfold norm_soc
  rw [if_neg hs, if_pos h]

theorem norm_soc_of_five_six {l : List Char}
    (h : (digitsOf l).length = 5 ∨ (digitsOf l).length = 6) :
    norm_soc l = (digitsOf l).take 2 ++ '-' :: (digitsOf l).drop 2 := by
  have hs : pyStrip l ≠ [] := by
    intro he
    rw [digitsOf_of_strip_nil he] at h
    simp at h
  have h7 : ¬ 7 ≤ (digitsOf l).length := by omega
  unfold norm_soc
  rw [if_neg hs, if_neg h7, if_pos h]

theorem norm_soc_of_short {l : List Char} (h : (digitsOf l).length < 5) :
    norm_soc l = pyStrip l := by
  by_cases hs : pyStrip l = []
  · rw [norm_soc_of_strip_nil hs, hs]
  · unfold norm_soc
    rw [if_neg hs, if_neg (by omega), if_neg (by omega)]

/-! ### Idempotence of `norm_soc` -/

theorem mem_digitsOf_digit {l : List Char} {c : Char} (h : c ∈ digitsOf l) :
    isDigitC c = true :=
  (List.mem_filter.mp h).2

theorem norm_soc_out_digits {l : List Char} {mid : List Char}
    (hmid : ∀ c ∈ mid, c ∈ digitsOf l ∨ c = '-') :
    ∀ c ∈ (digitsOf l).take 2 ++ '-' :: mid, isDigitC c = true ∨ c = '-' := by
  intro c hc
  rcases List.mem_append.mp hc with h1 | h2
  · exact Or.inl (mem_digitsOf_digit (List.take_subset _ _ h1))
  · rcases List.mem_cons.mp h2 with h3 | h4
    · exact Or.inr h3
    · rcases hmid c h4 with h5 | h6
      · exact Or.inl (mem_digitsOf_digit h5)
      · exact Or.inr h6

theorem pyStrip_norm_out {out : List Char}
    (h : ∀ c ∈ out, isDigitC c = true ∨ c = '-') : pyStrip out = out := by
  refine pyStrip_eq_self out ?_
  intro c hc
  rcases h c hc with h1 | h2
  · exact isDigitC_not_space c h1
  · rw [h2]; rfl

theorem filter_norm_out {l : List Char} {mid : List Char}
    (hmid : mid.filter isDigitC = (digitsOf l).drop 2) :
    ((digitsOf l).take 2 ++ '-' :: mid).filter isDigitC = digitsOf l := by
  rw [List.filter_append, List.filter_cons]
  have hd : isDigitC '-' = false := rfl
  rw [hd]
  simp only [Bool.false_eq_true, if_false]
  rw [List.filter_eq_self.mpr (fun c hc => mem_digitsOf_digit (List.take_subset _ _ hc)),
    hmid, List.take_append_drop]

theorem filter_mid_seven {l : List Char} (h : 7 ≤ (digitsOf l).length) :
    (((digitsOf l).drop 2).take 5 ++
        (if (digitsOf l).drop 7 = [] then [] else '-' :: (digitsOf l).drop 7)).filter isDigitC =
      (digitsOf l).drop 2 := by
  rw [List.filter_append]
  have h1 : (((digitsOf l).drop 2).take 5).filter isDigitC = ((digitsOf l).drop 2).take 5 :=
    List.filter_eq_self.mpr
      (fun c hc => mem_digitsOf_digit (List.drop_subset _ _ (List.take_subset _ _ hc)))
  have h2 : ((if (digitsOf l).drop 7 = [] then [] else '-' :: (digitsOf l).drop 7)).filter
      isDigitC = (digitsOf l).drop 7 := by
    by_cases hrest : (digitsOf l).drop 7 = []
    · rw [if_pos hrest, hrest]; rfl
    · rw [if_neg hrest, List.filter_cons]
      have hd : isDigitC '-' = false := rfl
      rw [hd]
      simp only [Bool.false_eq_true, if_false]
      exact List.filter_eq_self.mpr (fun c hc => mem_digitsOf_digit (List.drop_subset _ _ hc))
  rw [h1, h2]
  have h3 : ((digitsOf l).drop 2).take 5 = ((digitsOf l).take 7).drop 2 := by
    rw [List.take_drop]
  have h4 : (digitsOf l).drop 2 = ((digitsOf l).take 7).drop 2 ++ (digitsOf l).drop 7 := by
    conv_lhs => rw [← List.take_append_drop 7 (digitsOf l)]
    rw [List.drop_append_of_le_length (by rw [List.length_take]; omega)]
  rw [h3, ← h4]

theorem digitsOf_eq_of_canon {out d : List Char}
    (hstrip : pyStrip out = out) (hfil : out.filter isDigitC = d) : digitsOf out = d := by
  unfold digitsOf; rw [hstrip, hfil]

theorem norm_soc_idem_seven {l : List Char} (h7 : 7 ≤ (digitsOf l).length) :
    norm_soc (norm_soc l) = norm_soc l := by
  have hmid_mem : ∀ c ∈ ((digitsOf l).drop 2).take 5 ++
      (if (digitsOf l).drop 7 = [] then [] else '-' :: (digitsOf l).drop 7),
      c ∈ digitsOf l ∨ c = '-' := by
    intro c hc
    rcases List.mem_append.mp hc with h1 | h2
    · exact Or.inl (List.drop_subset _ _ (List.take_subset _ _ h1))
    · by_cases hrest : (digitsOf l).drop 7 = []
      · rw [if_pos hrest] at h2; simp at h2
      · rw [if_neg hrest] at h2
        rcases List.mem_cons.mp h2 with h3 | h4
        · exact Or.inr h3
        · exact Or.inl (List.drop_subset _ _ h4)
  have hchars := norm_soc_out_digits hmid_mem
  have hstrip := pyStrip_norm_out hchars
  have hdig : digitsOf ((digitsOf l).take 2 ++ '-' :: (((digitsOf l).drop 2).take 5 ++
      (if (digitsOf l).drop 7 = [] then [] else '-' :: (digitsOf l).drop 7))) = digitsOf l :=
    digitsOf_eq_of_canon hstrip (filter_norm_out (filter_mid_seven h7))
  rw [norm_soc_of_seven h7, norm_soc_of_seven (by rw [hdig]; exact h7), hdig]

theorem norm_soc_idem_five_six {l : List Char}
    (h56 : (digitsOf l).length = 5 ∨ (digitsOf l).length = 6) :
    norm_soc (norm_soc l) = norm_soc l := by
  have hmid_mem : ∀ c ∈ (digitsOf l).drop 2, c ∈ digitsOf l ∨ c = '-' :=
    fun c hc => Or.inl (List.drop_subset _ _ hc)
  have hchars := norm_soc_out_digits hmid_mem
  have hstrip := pyStrip_norm_out hchars
  have hdig : digitsOf ((digitsOf l).take 2 ++ '-' :: (digitsOf l).drop 2) = digitsOf l :=
    digitsOf_eq_of_canon hstrip (filter_norm_out (List.filter_eq_self.mpr
      (fun c hc => mem_digitsOf_digit (List.drop_subset _ _ hc))))
  rw [norm_soc_of_five_six h56, norm_soc_of_five_six (by rw [hdig]; exact h56), hdig]

/-! ### Claim theorems on `norm_soc` -/

/-- C1: for every input string whose digits (after stripping all non-digit
characters) number at least 7, `norm_soc` returns the first two digits, a
hyphen, the next five digits, and, when further digits remain, a second
hyphen followed by those remaining digits; for every input with exactly 5 or
6 digits it returns the first two digits, a hyphen, and the remaining
digits. -/
theorem norm_soc_format (l : List Char) :
    (7 ≤ (digitsOf l).length →
      norm_soc l = (digitsOf l).take 2 ++ '-' :: (((digitsOf l).drop 2).take 5 ++
        (if (digitsOf l).drop 7 = [] then [] else '-' :: (digitsOf l).drop 7))) ∧
    ((digitsOf l).length = 5 ∨ (digitsOf l).length = 6 →
      norm_soc l = (digitsOf l).take 2 ++ '-' :: (digitsOf l).drop 2) :=
  ⟨fun h => norm_soc_of_seven h, fun h => norm_soc_of_five_six h⟩

theorem norm_soc_format_witness :
    norm_soc "501234.5678".data = "50-12345-678".data ∧
    norm_soc "1-3-1-0-8-1".data = "13-1081".data := by
  have h1 := (norm_soc_format "501234.5678".data).1 (by decide)
  have h2 := (norm_soc_format "1-3-1-0-8-1".data).2 (Or.inr (by decide))
  exact ⟨by rw [h1]; decide, by rw [h2]; decide⟩

/-- C2: SOC normalization is idempotent: `norm_soc (norm_soc s) = norm_soc s`
for every input string `s` (in particular an already-canonical code with 7,
5 or 6 stripped digits is returned unchanged). -/
theorem norm_soc_idem (l : List Char) : norm_soc (norm_soc l) = norm_soc l := by
  by_cases h7 : 7 ≤ (digitsOf l).length
  · exact norm_soc_idem_seven h7
  · by_cases h56 : (digitsOf l).length = 5 ∨ (digitsOf l).length = 6
    · exact norm_soc_idem_five_six h56
    · have hshort : (digitsOf l).length < 5 := by omega
      have hd2 : digitsOf (pyStrip l) = digitsOf l := by
        unfold digitsOf; rw [pyStrip_idem]
      rw [norm_soc_of_short hshort, norm_soc_of_short (by rw [hd2]; exact hshort),
        pyStrip_idem]

/-- C10: an input with fewer than 5 stripped digits is returned
whitespace-trimmed but otherwise unchanged; a missing (`NaN`) cell and the
empty string both normalize to the empty string.  (All cases are total:
no input raises an error.) -/
theorem norm_soc_short_input :
    (∀ l : List Char, (digitsOf l).length < 5 → norm_soc l = pyStrip l) ∧
    normSocCell none = [] ∧ norm_soc [] = [] :=
  ⟨fun _ h => norm_soc_of_short h, rfl, rfl⟩

theorem norm_soc_short_input_witness :
    norm_soc " ab12 ".data = pyStrip " ab12 ".data ∧ normSocCell none = [] := by
  have h1 := norm_soc_short_input.1 " ab12 ".data (by decide)
  exact ⟨h1, norm_soc_short_input.2.1⟩

/-! ### The merge step (source line 299)

`pd.merge(in_df, onet_df, on="SOC Code", how="left", validate="m:1")`:
pandas first checks the `m:1` cardinality contract — the right (reference)
side must have unique keys, otherwise `MergeError` is raised — and then
emits, for every left row in order, that row joined with its unique right
match, or with all right columns missing when there is no match. -/

/-- An input row: its normalized SOC code plus opaque passthrough data. -/
structure InRow (β : Type) where
  soc : List Char
  rest : β
  deriving DecidableEq, Repr

/-- A reference (Work Values) row: normalized SOC code plus the six value
cells (a cell may be missing). -/
structure RefRow (α : Type) where
  soc : List Char
  achievement : Option α
  independence : Option α
  recognition : Option α
  relationships : Option α
  support : Option α
  workingConditions : Option α
  deriving DecidableEq, Repr

/-- A merged row: the input row plus the six value columns (missing when the
SOC code had no match). -/
structure MergedRow (α β : Type) where
  soc : List Char
  rest : β
  achievement : Option α
  independence : Option α
  recognition : Option α
  relationships : Option α
  support : Option α
  workingConditions : Option α
  deriving DecidableEq, Repr

/-- Join one input row against the reference table (first matching key; the
`m:1` check guarantees there is at most one). -/
def joinRow {α β : Type} (r : InRow β) (right : List (RefRow α)) : MergedRow α β :=
  match right.find? (fun t => t.soc = r.soc) with
  | none => ⟨r.soc, r.rest, none, none, none, none, none, none⟩
  | some t => ⟨r.soc, r.rest, t.achievement, t.independence, t.recognition,
      t.relationships, t.support, t.workingConditions⟩

/-- The left merge with `validate="m:1"`. -/
def mergeLeftM1 {α β : Type} (left : List (InRow β)) (right : List (RefRow α)) :
    Except String (List (MergedRow α β)) :=
  if (right.map RefRow.soc).Nodup then
    Except.ok (left.map (fun r => joinRow r right))
  else
    Except.error "MergeError: Merge keys are not unique in right dataset; not a many-to-one merge"

/-- C3: if the reference table handed to the merge step contains two rows
with the same normalized SOC code, the merge fails with a fatal error
rather than silently duplicating the matching input rows. -/
theorem merge_dup_right_errors {α β : Type} (left : List (InRow β))
    (l1 l2 l3 : List (RefRow α)) (t1 t2 : RefRow α) (hsoc : t1.soc = t2.soc) :
    ∃ msg, mergeLeftM1 left (l1 ++ t1 :: (l2 ++ t2 :: l3)) = Except.error msg := by
  have hnd : ¬ ((l1 ++ t1 :: (l2 ++ t2 :: l3)).map RefRow.soc).Nodup := by
    intro hnd
    rw [List.map_append, List.map_cons, List.map_append, List.map_cons] at hnd
    have h1 := (List.nodup_append.mp hnd).2.1
    rw [List.nodup_cons] at h1
    exact h1.1 (by rw [hsoc]; simp)
  exact ⟨_, by unfold mergeLeftM1; rw [if_neg hnd]⟩

theorem merge_dup_right_errors_witness :
    ∃ msg, mergeLeftM1 (α := Nat) (β := Unit) [⟨"13-1081".data, ()⟩]
      ([] ++ ⟨"13-1081".data, some 1, none, none, none, none, none⟩ :: ([] ++
        ⟨"13-1081".data, some 2, none, none, none, none, none⟩ :: [])) = Except.error msg :=
  merge_dup_right_errors _ [] [] [] _ _ (by decide)

/-- C4: in a successful merge, every input row whose normalized SOC code has
no match in the reference table appears in the output with all six value
columns missing, and no input row is dropped (the output has exactly one row
per input row). -/
theorem merge_left_preserves {α β : Type} (left : List (InRow β)) (right : List (RefRow α))
    (out : List (MergedRow α β)) (hok : mergeLeftM1 left right = Except.ok out)
    (r : InRow β) (hr : r ∈ left) (hnomatch : r.soc ∉ right.map RefRow.soc) :
    out.length = left.length ∧
      (⟨r.soc, r.rest, none, none, none, none, none, none⟩ : MergedRow α β) ∈ out := by
  unfold mergeLeftM1 at hok
  by_cases hnd : (right.map RefRow.soc).Nodup
  · rw [if_pos hnd] at hok
    have hout : out = left.map (fun r => joinRow r right) := by
      cases hok; rfl
    subst hout
    constructor
    · exact List.length_map _ _
    · have hfind : right.find? (fun t => t.soc = r.soc) = none := by
        rw [List.find?_eq_none]
        intro t ht
        simp only [decide_eq_true_eq]
        intro heq
        exact hnomatch (by rw [← heq]; exact List.mem_map_of_mem RefRow.soc ht)
      have : joinRow r right = ⟨r.soc, r.rest, none, none, none, none, none, none⟩ := by
        unfold joinRow; rw [hfind]
      exact this ▸ List.mem_map_of_mem _ hr
  · rw [if_neg hnd] at hok
    cases hok

theorem merge_left_preserves_witness :
    ([(⟨"99-9999".data, (), none, none, none, none, none, none⟩ : MergedRow Nat Unit)].length =
        [(⟨"99-9999".data, ()⟩ : InRow Unit)].length) ∧
      (⟨"99-9999".data, (), none, none, none, none, none, none⟩ : MergedRow Nat Unit) ∈
        [(⟨"99-9999".data, (), none, none, none, none, none, none⟩ : MergedRow Nat Unit)] := by
  have h := merge_left_preserves (α := Nat) (β := Unit) [⟨"99-9999".data, ()⟩]
    [] [⟨"99-9999".data, (), none, none, none, none, none, none⟩] (by rfl)
    ⟨"99-9999".data, ()⟩ (by simp) (by simp)
  exact h

/-! ### Column canonicalization and the tolerant Work-Values column resolver
(source lines 40-42 and 122-134) -/

/-- Characters kept by `re.sub(r"[^a-z0-9]", "", ...)` after lower-casing. -/
def isLowerAlnum (c : Char) : Bool :=
  (97 ≤ c.toNat && c.toNat ≤ 122) || (48 ≤ c.toNat && c.toNat ≤ 57)

/-- `_canon`: lowercase and strip non-alphanumerics. -/
def canon (s : String) : String :=
  ⟨(s.data.map Char.toLower).filter isLowerAlnum⟩

/-- Python `needle == hay[:len(needle)]` (needle is a leading part of hay). -/
def leadMatch : List Char → List Char → Bool
  | [], _ => true
  | _ :: _, [] => false
  | a :: as, b :: bs => a = b && leadMatch as bs

/-- Python substring test `needle in hay`. -/
def containsSub (needle : List Char) : List Char → Bool
  | [] => leadMatch needle []
  | c :: t => leadMatch needle (c :: t) || containsSub needle t

/-- Python dict insertion `d[k] = v`: an existing key keeps its position but
its value is overwritten; a new key is appended. -/
def dictUpsert (m : List (String × String)) (k v : String) : List (String × String) :=
  if m.any (fun p => p.1 = k) then m.map (fun p => if p.1 = k then (k, v) else p)
  else m ++ [(k, v)]

/-- `canon_headers = {_canon(c): c for c in onet_df.columns}` (line 122). -/
def canonHeaders (cols : List String) : List (String × String) :=
  cols.foldl (fun m c => dictUpsert m (canon c) c) []

/-- Python dict lookup `canon_headers[a]` as an `Option`. -/
def lookupD (ch : List (String × String)) (a : String) : Option String :=
  (ch.find? (fun kv => kv.1 = a)).map Prod.snd

/-- `_find_value_col` (lines 124-134): exact canonical match over all
aliases first, then a containment match, both iterated alias-major. -/
def findValueCol (aliases : List String) (ch : List (String × String)) : Option String :=
  match aliases.findSome? (fun a => lookupD ch a) with
  | some h => some h
  | none => aliases.findSome?
      (fun a => (ch.find? (fun kv => containsSub a.data kv.1.data)).map Prod.snd)

theorem findSome_first_hit {γ : Type} (f : String → Option γ) (aliases : List String)
    (a : String) (ha : a ∈ aliases) (hhit : f a ≠ none) :
    ∃ a1 l1 l2, aliases = l1 ++ a1 :: l2 ∧ (∀ b ∈ l1, f b = none) ∧ f a1 ≠ none ∧
      aliases.findSome? f = f a1 := by
  induction aliases with
  | nil => cases ha
  | cons x xs ih =>
    by_cases hx : f x = none
    · have ha' : a ∈ xs := by
        rcases List.mem_cons.mp ha with h | h
        · exact absurd (h ▸ hx) hhit
        · exact h
      obtain ⟨a1, l1, l2, he, hn, hh, hres⟩ := ih ha'
      refine ⟨a1, x :: l1, l2, by rw [he]; rfl, ?_, hh, ?_⟩
      · intro b hb
        rcases List.mem_cons.mp hb with h | h
        · exact h ▸ hx
        · exact hn b h
      · rw [List.findSome?_cons, hx, hres]
    · cases hv : f x with
      | none => exact absurd hv hx
      | some v =>
        refine ⟨x, [], xs, rfl, (by intro b hb; cases hb), hx, ?_⟩
        rw [List.findSome?_cons, hv]

/-- C6 (amended): whenever some alias has an exact canonical match among the
headers, the resolver's result is the exact-stage lookup of the first such
alias in alias order — exact matching is tried across all aliases before any
containment match, but ties are broken by alias order (and by the
dict-overwrite in `canonHeaders`), not by column position. -/
theorem findValueCol_exact_priority (aliases : List String) (ch : List (String × String))
    (a : String) (ha : a ∈ aliases) (hhit : lookupD ch a ≠ none) :
    ∃ a1 l1 l2, aliases = l1 ++ a1 :: l2 ∧ (∀ b ∈ l1, lookupD ch b = none) ∧
      lookupD ch a1 ≠ none ∧ findValueCol aliases ch = lookupD ch a1 := by
  obtain ⟨a1, l1, l2, he, hn, hh, hres⟩ :=
    findSome_first_hit (fun a => lookupD ch a) aliases a ha hhit
  refine ⟨a1, l1, l2, he, hn, hh, ?_⟩
  unfold findValueCol
  rw [hres]
  cases hv : lookupD ch a1 with
  | none => exact absurd hv hh
  | some v => rfl

theorem findValueCol_exact_priority_witness :
    ∃ a1 l1 l2, (["achievement", "achievements"] : List String) = l1 ++ a1 :: l2 ∧
      (∀ b ∈ l1, lookupD (canonHeaders ["Achievement (Score)", "achievements"]) b = none) ∧
      lookupD (canonHeaders ["Achievement (Score)", "achievements"]) a1 ≠ none ∧
      findValueCol ["achievement", "achievements"]
          (canonHeaders ["Achievement (Score)", "achievements"]) =
        lookupD (canonHeaders ["Achievement (Score)", "achievements"]) a1 :=
  findValueCol_exact_priority ["achievement", "achievements"]
    (canonHeaders ["Achievement (Score)", "achievements"]) "achievements" (by decide)
    (by decide)

/-- C6 (counterexample): with headers `["Relationships", "Relationship"]`
both headers match exactly at the exact stage (their canonical forms are the
two aliases of the `Relationships` value), yet the resolver returns the
*second* header, because the alias list is iterated before the header list
— the earliest-position header `"Relationships"` is not returned. -/
theorem findValueCol_cex :
    canon "Relationships" = "relationships" ∧ canon "Relationship" = "relationship" ∧
    lookupD (canonHeaders ["Relationships", "Relationship"]) "relationships" =
      some "Relationships" ∧
    findValueCol ["relationship", "relationships"]
      (canonHeaders ["Relationships", "Relationship"]) = some "Relationship" := by
  decide

/-! ### Long-shape rows and the importance-scale filter (lines 197-201) -/

/-- A long-shape row after SOC normalization and element mapping: normalized
SOC code, canonical value name (`_target_value`), the `Scale Name` cell (as
a string, as `.astype(str)` renders it), the permissively parsed `Date`
(`none` when missing or unparseable, as `pd.to_datetime(..., errors="coerce")`
yields `NaT`), and the opaque `Data Value`. -/
structure ORow (α : Type) where
  soc : String
  tval : String
  scale : String
  date : Option Nat
  dv : α
  deriving DecidableEq, Repr

/-- `df["Scale Name"].astype(str).str.lower().str.contains("importance")`
(the pattern has no regex metacharacters, so it is a substring test). -/
def hasImportance (s : String) : Bool :=
  containsSub "importance".data (s.data.map Char.toLower)

/-- Lines 198-201: keep only importance-scale rows, but only when at least
one row matches. -/
def importanceFilter {α : Type} (rows : List (ORow α)) : List (ORow α) :=
  if rows.any (fun r => hasImportance r.scale) then
    rows.filter (fun r => hasImportance r.scale)
  else rows

/-- C7: when a Scale Name column is present and at least one row's scale
name contains "importance" case-insensitively, exactly the rows whose scale
name contains "importance" are kept; when no row matches, all rows are kept
unchanged. -/
theorem importanceFilter_spec {α : Type} (rows : List (ORow α)) :
    ((∃ r ∈ rows, hasImportance r.scale = true) →
      importanceFilter rows = rows.filter (fun r => hasImportance r.scale)) ∧
    ((∀ r ∈ rows, hasImportance r.scale = false) → importanceFilter rows = rows) := by
  constructor
  · intro h
    obtain ⟨r, hr, hh⟩ := h
    unfold importanceFilter
    rw [if_pos (List.any_eq_true.mpr ⟨r, hr, hh⟩)]
  · intro h
    unfold importanceFilter
    rw [if_neg ?_]
    intro hany
    obtain ⟨r, hr, hh⟩ := List.any_eq_true.mp hany
    rw [h r hr] at hh
    cases hh

theorem importanceFilter_spec_witness :
    importanceFilter [(⟨"15-1251", "Achievement", "Importance", some 1, 45⟩ : ORow Nat),
        ⟨"15-1251", "Achievement", "Level", some 1, 30⟩] =
      List.filter (fun r => hasImportance r.scale)
        [(⟨"15-1251", "Achievement", "Importance", some 1, 45⟩ : ORow Nat),
          ⟨"15-1251", "Achievement", "Level", some 1, 30⟩] :=
  (importanceFilter_spec _).1
    ⟨⟨"15-1251", "Achievement", "Importance", some 1, 45⟩, by simp, by decide⟩

/-! ### The wide path (lines 144-151) and the long-path pivot (lines 212-225) -/

/-- The canonical Work Values column order (source lines 20-27). -/
def VALUE_COLS_CANON : List String :=
  ["Achievement", "Independence", "Recognition", "Relationships", "Support",
   "Working Conditions"]

/-- A wide-shape reference row: the raw SOC cell and the six value cells
(opaque; the loader never interprets them). -/
structure WRow (α : Type) where
  soc : List Char
  achievement : α
  independence : α
  recognition : α
  relationships : α
  support : α
  workingConditions : α
  deriving DecidableEq, Repr

/-- `drop_duplicates(subset=[key], keep="first")`: keep the first row with
each key value, in order. -/
def dropDupFirstGo {α κ : Type} [DecidableEq κ] (key : α → κ) (seen : List κ) :
    List α → List α
  | [] => []
  | r :: rs =>
    if key r ∈ seen then dropDupFirstGo key seen rs
    else r :: dropDupFirstGo key (key r :: seen) rs

def dropDupFirst {α κ : Type} [DecidableEq κ] (key : α → κ) (l : List α) : List α :=
  dropDupFirstGo key [] l

/-- The wide branch (lines 144-151): normalize the SOC cells, then drop
duplicate SOC codes keeping the first occurrence. -/
def wideResult {α : Type} (rows : List (WRow α)) : List (WRow α) :=
  dropDupFirst WRow.soc (rows.map (fun r => { r with soc := norm_soc r.soc }))

/-- One pivot cell: `aggfunc="last"` on the `Data Value` of the rows of the
`(SOC, value)` group, `none` when no row contributes.  (Data-value cells are
modelled as present, under which pandas `last` is the last contributing
row.) -/
def cellLast {α : Type} (rows : List (ORow α)) (s v : String) : Option α :=
  ((rows.filter (fun r => r.soc = s && r.tval = v)).map ORow.dv).getLast?

/-- `pivot_table(index="SOC Code", columns="_target_value",
values="Data Value", aggfunc="last")` (lines 212-217): one row per distinct
SOC code (pandas sorts the index), one cell per canonical value name; a
value name with no contributing rows is a fully missing column
(lines 219-222). -/
def pivotLong {α : Type} (rows : List (ORow α)) : List (String × List (Option α)) :=
  (List.insertionSort (fun a b : String => a ≤ b) (dropDupFirst id (rows.map ORow.soc))).map
    (fun s => (s, VALUE_COLS_CANON.map (fun v => cellLast rows s v)))

/-- The long branch's final table (line 224 adds one more
`drop_duplicates(subset=["SOC Code"])`). -/
def longResult {α : Type} (rows : List (ORow α)) : List (String × List (Option α)) :=
  dropDupFirst Prod.fst (pivotLong rows)

theorem nodup_dropDupFirstGo {α κ : Type} [DecidableEq κ] (key : α → κ) :
    ∀ (l : List α) (seen : List κ),
      ((dropDupFirstGo key seen l).map key).Nodup ∧
        ∀ k ∈ (dropDupFirstGo key seen l).map key, k ∉ seen := by
  intro l
  induction l with
  | nil => exact fun seen => ⟨List.nodup_nil, fun k hk => by cases hk⟩
  | cons r rs ih =>
    intro seen
    by_cases h : key r ∈ seen
    · simp only [dropDupFirstGo, if_pos h]
      exact ih seen
    · simp only [dropDupFirstGo, if_neg h, List.map_cons]
      obtain ⟨ihnd, ihs⟩ := ih (key r :: seen)
      refine ⟨List.nodup_cons.mpr ⟨fun hmem => (ihs _ hmem) (List.mem_cons_self _ _), ihnd⟩, ?_⟩
      intro k hk
      rcases List.mem_cons.mp hk with h1 | h2
      · exact h1 ▸ h
      · exact fun hks => (ihs k h2) (List.mem_cons_of_mem _ hks)

theorem nodup_keys_dropDupFirst {α κ : Type} [DecidableEq κ] (key : α → κ) (l : List α) :
    ((dropDupFirst key l).map key).Nodup :=
  (nodup_dropDupFirstGo key l []).1

/-- C8 (amended): the reference table returned by either branch of the
loader has at most one record per normalized SOC code.  (The collapsing is
keep-first in the wide branch, and keep-last per pivot cell in the long
branch — not uniformly last-write-wins.) -/
theorem refTable_soc_nodup {α β : Type} (rowsW : List (WRow α)) (rowsL : List (ORow β)) :
    ((wideResult rowsW).map WRow.soc).Nodup ∧ ((longResult rowsL).map Prod.fst).Nodup :=
  ⟨nodup_keys_dropDupFirst _ _, nodup_keys_dropDupFirst _ _⟩

/-- C8 (counterexample): two wide rows that normalize to the same SOC code
collapse to the *first* row's values, so the duplicate collapse is not
last-write-wins. -/
theorem wideResult_keep_first_cex :
    wideResult [(⟨"131081".data, 1, 2, 3, 4, 5, 6⟩ : WRow Nat),
        ⟨"13-1081".data, 7, 8, 9, 10, 11, 12⟩] =
      [⟨"13-1081".data, 1, 2, 3, 4, 5, 6⟩] ∧
    wideResult [(⟨"131081".data, 1, 2, 3, 4, 5, 6⟩ : WRow Nat),
        ⟨"13-1081".data, 7, 8, 9, 10, 11, 12⟩] ≠
      [⟨"13-1081".data, 7, 8, 9, 10, 11, 12⟩] := by
  decide

/-! ### Input-column preparation and output column order
(lines 242-289 and 301-304) -/

/-- The SOC column aliases accepted for the input table (lines 251-260). -/
def socOptsMain : List String :=
  ["SOC Code", "SOC", "Code", "SOC_Code", "O*NET-SOC Codes", "O*NET-SOC Code",
   "ONET SOC Codes", "ONET SOC Code", "ONET-SOC Codes", "ONET-SOC Code",
   "ONET Codes", "ONET Code"]

/-- `find_col` (lines 61-67): first column whose canonical form is among the
canonical forms of the options, as an `Option` (`main` catches the
`KeyError` for the optional columns). -/
def findColOpt (cols : List String) (opts : List String) : Option String :=
  cols.find? (fun c => (opts.map canon).contains (canon c))

/-- Pandas column assignment `df[c] = ...`: overwrites in place when the
column exists, otherwise appends it at the end. -/
def assignCol (cols : List String) (c : String) : List String :=
  if c ∈ cols then cols else cols ++ [c]

/-- Pandas `df.rename(columns={old: nw})` at the header level. -/
def renameCol (cols : List String) (old nw : String) : List String :=
  cols.map (fun c => if c = old then nw else c)

/-- The input-preparation of `main` (lines 242-289) at the header level:
resolve the SOC column (required), then ensure `SOC Code`, `HeadCount`,
`Occupational Title` exist and rename the job-title column when present. -/
def inputPrepCols (cols0 : List String) : Option (List String) :=
  match findColOpt cols0 socOptsMain with
  | none => none
  | some _ =>
    let job := findColOpt cols0 ["Job Title", "Job Titles"]
    let hc := findColOpt cols0 ["HeadCount", "Head Count", "HC"]
    let occ := findColOpt cols0 ["Occupational Title", "Occupation Title", "ONET Title", "Title"]
    let c1 := assignCol cols0 "SOC Code"
    let c2 := match hc with
      | none => assignCol c1 "HeadCount"
      | some h => renameCol c1 h "HeadCount"
    let c3 := match occ with
      | some o => renameCol c2 o "Occupational Title"
      | none => assignCol c2 "Occupational Title"
    let c4 := match job with
      | some j => if j = "Job Title" then c3 else renameCol c3 j "Job Title"
      | none => c3
    some c4

/-- Headers of `pd.merge(in_df, onet_df, on="SOC Code", how="left",
suffixes=("", "_ONET"))`: the left columns unchanged (empty left suffix),
then the right columns minus the key, suffixed on collision. -/
def mergedCols (inCols : List String) : List String :=
  inCols ++ VALUE_COLS_CANON.map (fun c => if c ∈ inCols then c ++ "_ONET" else c)

/-- `front` (line 301): the four leading columns, filtered by presence. -/
def orderFront (cols : List String) : List String :=
  List.filter (fun c => decide (c ∈ cols))
    ["Job Title", "HeadCount", "SOC Code", "Occupational Title"]

/-- `vals` (line 302): the canonical value columns, filtered by presence. -/
def orderVals (cols : List String) : List String :=
  VALUE_COLS_CANON.filter (fun c => decide (c ∈ cols))

/-- The output reorder (lines 301-304): `front`, then `vals`, then all
other columns in their original order. -/
def orderColumns (cols : List String) : List String :=
  orderFront cols ++ orderVals cols ++
    cols.filter (fun c => decide (c ∉ orderFront cols ++ orderVals cols))

/-- C9 (counterexample): an input whose headers carry a SOC column but no
job-title column is accepted by `main`, and the resulting output column
list does not begin with `Job Title` (the front block is filtered by
presence, and `Job Title` is only created when the input has a job-title
column). -/
theorem orderColumns_cex :
    inputPrepCols ["SOC"] = some ["SOC", "SOC Code", "HeadCount", "Occupational Title"] ∧
    orderColumns (mergedCols ["SOC", "SOC Code", "HeadCount", "Occupational Title"]) =
      ["HeadCount", "SOC Code", "Occupational Title", "Achievement", "Independence",
       "Recognition", "Relationships", "Support", "Working Conditions", "SOC"] ∧
    "Job Title" ∉
      orderColumns (mergedCols ["SOC", "SOC Code", "HeadCount", "Occupational Title"]) := by
  decide

/-- C9 (amended): the output begins with whichever of `Job Title`,
`HeadCount`, `SOC Code`, `Occupational Title` are present, in that order,
then whichever of the six canonical value columns are present in canonical
order, then the remaining columns in their original relative order
(a sublist of the input order); no column is lost or duplicated. -/
theorem orderColumns_spec (cols : List String) (h : cols.Nodup) :
    List.Perm (orderColumns cols) cols ∧
    ∃ others, orderColumns cols = orderFront cols ++ orderVals cols ++ others ∧
      others.Sublist cols := by
  have hsub : ∀ c ∈ orderFront cols ++ orderVals cols, c ∈ cols := by
    intro c hc
    rcases List.mem_append.mp hc with h1 | h2
    · exact of_decide_eq_true (List.mem_filter.mp h1).2
    · exact of_decide_eq_true (List.mem_filter.mp h2).2
  constructor
  · unfold orderColumns
    have hnd : (orderFront cols ++ orderVals cols).Nodup := by
      refine List.Nodup.append (List.Nodup.filter _ (by decide))
        (List.Nodup.filter _ (by decide)) ?_
      intro a ha hb
      have h1 := (List.mem_filter.mp ha).1
      have h2 := (List.mem_filter.mp hb).1
      simp only [List.mem_cons, List.not_mem_nil, or_false] at h1
      rcases h1 with rfl | rfl | rfl | rfl <;> exact absurd h2 (by decide)
    have hfv : List.Perm (orderFront cols ++ orderVals cols)
        (cols.filter (fun c => decide (c ∈ orderFront cols ++ orderVals cols))) := by
      refine (List.perm_ext_iff_of_nodup hnd (h.filter _)).mpr ?_
      intro a
      rw [List.mem_filter]
      constructor
      · intro ha
        exact ⟨hsub a ha, decide_eq_true ha⟩
      · intro ha
        exact of_decide_eq_true ha.2
    refine List.Perm.trans (List.Perm.append hfv (List.Perm.refl _)) ?_
    have hperm := List.filter_append_perm
      (fun c => decide (c ∈ orderFront cols ++ orderVals cols)) cols
    have heq : cols.filter (fun c => !decide (c ∈ orderFront cols ++ orderVals cols)) =
        cols.filter (fun c => decide (c ∉ orderFront cols ++ orderVals cols)) :=
      List.filter_congr (fun c _ => decide_not.symm)
    rw [heq] at hperm
    exact hperm
  · exact ⟨_, rfl, List.filter_sublist _⟩

theorem orderColumns_spec_witness :
    List.Perm (orderColumns ["Extra", "SOC Code", "HeadCount", "Achievement"])
      ["Extra", "SOC Code", "HeadCount", "Achievement"] ∧
    ∃ others, orderColumns ["Extra", "SOC Code", "HeadCount", "Achievement"] =
      orderFront ["Extra", "SOC Code", "HeadCount", "Achievement"] ++
        orderVals ["Extra", "SOC Code", "HeadCount", "Achievement"] ++ others ∧
      others.Sublist ["Extra", "SOC Code", "HeadCount", "Achievement"] :=
  orderColumns_spec ["Extra", "SOC Code", "HeadCount", "Achievement"] (by decide)

/-! ### Date-based deduplication in the long-shape loader (lines 204-210)

`df.sort_values(["SOC Code", "_target_value", "__date"], ascending=True)`
sorts stably (pandas uses a stable lexsort for multi-key sorts) with missing
dates (`NaT`, from `pd.to_datetime(..., errors="coerce")`) placed *last*
within their group (`na_position="last"` default), and
`groupby(["SOC Code", "_target_value"]).tail(1)` then keeps the last row of
each group in that order.  A stable sort is modelled exactly by a total
sort whose key carries the original row index as final tie-break. -/

/-- Sort key for the `__date` column: `NaT` sorts after every real date. -/
def dKey (d : Option Nat) : WithTop Nat :=
  match d with
  | none => ⊤
  | some n => (n : WithTop Nat)

/-- Full sort key of an indexed row: (SOC, value name, date, original
position), compared lexicographically. -/
def rKey {α : Type} (x : Nat × ORow α) : String ×ₗ (String ×ₗ ((WithTop Nat) ×ₗ Nat)) :=
  toLex (x.2.soc, toLex (x.2.tval, toLex (dKey x.2.date, x.1)))

def rowLe {α : Type} (a b : Nat × ORow α) : Prop :=
  rKey a ≤ rKey b

instance {α : Type} : DecidableRel (rowLe (α := α)) :=
  fun a b => inferInstanceAs (Decidable (rKey a ≤ rKey b))

instance {α : Type} : IsTotal (Nat × ORow α) rowLe :=
  ⟨fun a b => le_total (rKey a) (rKey b)⟩

instance {α : Type} : IsTrans (Nat × ORow α) rowLe :=
  ⟨fun _ _ _ h1 h2 => le_trans h1 h2⟩

/-- The grouping key of `groupby(["SOC Code", "_target_value"])`. -/
def gkey {α : Type} (x : Nat × ORow α) : String × String :=
  (x.2.soc, x.2.tval)

/-- `groupby(keys).tail(1)`: keep a row exactly when no later row belongs to
the same group. -/
def tailOne {α κ : Type} [DecidableEq κ] (gk : α → κ) : List α → List α
  | [] => []
  | r :: rs =>
    if rs.any (fun x => decide (gk x = gk r)) then tailOne gk rs
    else r :: tailOne gk rs

def sortRowsI {α : Type} (rows : List (Nat × ORow α)) : List (Nat × ORow α) :=
  List.insertionSort rowLe rows

/-- The sorted frame of line 209, with indices stripped. -/
def sortRows {α : Type} (rows : List (ORow α)) : List (ORow α) :=
  (sortRowsI rows.enum).map Prod.snd

/-- Lines 204-210: sort by (SOC, value, date) with original order as the
stable tie-break, then keep the last row per (SOC, value) group. -/
def dateDedup {α : Type} (rows : List (ORow α)) : List (ORow α) :=
  (tailOne gkey (sortRowsI rows.enum)).map Prod.snd

/-- C5 (counterexample): in a group holding one row with a parsed date and
one whose date failed to parse (`none`/`NaT`), the surviving row is the
unparseable-date row — `NaT` sorts last and `tail(1)` keeps it — not the
row with the chronologically latest parsed date. -/
theorem dateDedup_nat_cex :
    dateDedup [(⟨"11-1011", "Achievement", "Importance", some 100, 30⟩ : ORow Nat),
        ⟨"11-1011", "Achievement", "Importance", none, 99⟩] =
      [⟨"11-1011", "Achievement", "Importance", none, 99⟩] ∧
    (⟨"11-1011", "Achievement", "Importance", none, 99⟩ : ORow Nat).date = none := by
  refine ⟨?_, rfl⟩
  have hle : rowLe ((0 : Nat), (⟨"11-1011", "Achievement", "Importance", some 100, 30⟩ : ORow Nat))
      (1, ⟨"11-1011", "Achievement", "Importance", none, 99⟩) := by
    unfold rowLe rKey
    rw [Prod.Lex.le_iff]
    refine Or.inr ⟨rfl, ?_⟩
    rw [Prod.Lex.le_iff]
    refine Or.inr ⟨rfl, ?_⟩
    rw [Prod.Lex.le_iff]
    exact Or.inl (WithTop.coe_lt_top (100 : Nat))
  have hsort : sortRowsI
      [((0 : Nat), (⟨"11-1011", "Achievement", "Importance", some 100, 30⟩ : ORow Nat)),
        (1, ⟨"11-1011", "Achievement", "Importance", none, 99⟩)] =
      [((0 : Nat), (⟨"11-1011", "Achievement", "Importance", some 100, 30⟩ : ORow Nat)),
        (1, ⟨"11-1011", "Achievement", "Importance", none, 99⟩)] := by
    unfold sortRowsI
    simp only [List.insertionSort, List.orderedInsert_nil]
    exact List.orderedInsert_of_le rowLe _ hle
  show (tailOne gkey (sortRowsI
      ([(⟨"11-1011", "Achievement", "Importance", some 100, 30⟩ : ORow Nat),
        ⟨"11-1011", "Achievement", "Importance", none, 99⟩]).enum)).map Prod.snd = _
  rw [show ([(⟨"11-1011", "Achievement", "Importance", some 100, 30⟩ : ORow Nat),
        ⟨"11-1011", "Achievement", "Importance", none, 99⟩]).enum =
      [((0 : Nat), (⟨"11-1011", "Achievement", "Importance", some 100, 30⟩ : ORow Nat)),
        (1, ⟨"11-1011", "Achievement", "Importance", none, 99⟩)] from rfl, hsort]
  decide

theorem tailOne_cons {α κ : Type} [DecidableEq κ] (gk : α → κ) (r : α) (rs : List α) :
    tailOne gk (r :: rs) =
      if rs.any (fun x => decide (gk x = gk r)) then tailOne gk rs
      else r :: tailOne gk rs := rfl

theorem filter_tailOne {α κ : Type} [DecidableEq κ] (gk : α → κ) (k : κ) (l : List α) :
    (tailOne gk l).filter (fun x => decide (gk x = k)) =
      tailOne gk (l.filter (fun x => decide (gk x = k))) := by
  induction l with
  | nil => rfl
  | cons r rs ih =>
    by_cases hk : gk r = k
    · subst hk
      by_cases hany : rs.any (fun x => decide (gk x = gk r)) = true
      · rw [tailOne_cons, if_pos hany]
        rw [List.filter_cons_of_pos (by simp)]
        have hany2 : (rs.filter (fun x => decide (gk x = gk r))).any
            (fun x => decide (gk x = gk r)) = true := by
          obtain ⟨x, hx, hgx⟩ := List.any_eq_true.mp hany
          exact List.any_eq_true.mpr ⟨x, List.mem_filter.mpr ⟨hx, hgx⟩, hgx⟩
        rw [tailOne_cons, if_pos hany2]
        exact ih
      · rw [tailOne_cons, if_neg hany]
        have hfil : rs.filter (fun x => decide (gk x = gk r)) = [] := by
          refine List.filter_eq_nil_iff.mpr ?_
          intro x hx
          simp only [decide_eq_true_eq]
          intro hgx
          exact hany (List.any_eq_true.mpr ⟨x, hx, by simp [hgx]⟩)
        rw [List.filter_cons_of_pos (by simp), List.filter_cons_of_pos (by simp), ih, hfil]
        rfl
    · by_cases hany : rs.any (fun x => decide (gk x = gk r)) = true
      · rw [tailOne_cons, if_pos hany]
        rw [List.filter_cons_of_neg (by simp [hk])]
        exact ih
      · rw [tailOne_cons, if_neg hany]
        rw [List.filter_cons_of_neg (by simp [hk]), List.filter_cons_of_neg (by simp [hk])]
        exact ih

theorem tailOne_all_eq {α κ : Type} [DecidableEq κ] (gk : α → κ) (k : κ) :
    ∀ (l : List α), l ≠ [] → (∀ x ∈ l, gk x = k) →
      ∃ w, l.getLast? = some w ∧ tailOne gk l = [w] := by
  intro l
  induction l with
  | nil => intro h; exact absurd rfl h
  | cons r rs ih =>
    intro _ hall
    cases rs with
    | nil => exact ⟨r, rfl, rfl⟩
    | cons b t =>
      obtain ⟨w, hg, ht⟩ := ih (by simp) (fun x hx => hall x (List.mem_cons_of_mem _ hx))
      have hany : (b :: t).any (fun x => decide (gk x = gk r)) = true := by
        refine List.any_eq_true.mpr ⟨b, List.mem_cons_self _ _, ?_⟩
        have h1 : gk b = k := hall b (by simp)
        have h2 : gk r = k := hall r (by simp)
        simp [h1, h2]
      refine ⟨w, hg, ?_⟩
      rw [tailOne_cons, if_pos hany]
      exact ht

theorem pairwise_le_getLast {α : Type} (le : α → α → Prop) (hrefl : ∀ a, le a a) :
    ∀ (l : List α), l.Pairwise le → ∀ w, l.getLast? = some w → ∀ x ∈ l, le x w := by
  intro l
  induction l with
  | nil => intro _ w hw; cases hw
  | cons a t ih =>
    intro hp w hw x hx
    cases t with
    | nil =>
      have hwa : w = a := by
        have : (some a : Option α) = some w := hw
        exact (Option.some.injEq a w ▸ this).symm
      have hxa : x = a := by simpa using hx
      rw [hwa, hxa]
      exact hrefl a
    | cons b s =>
      have hw2 : (b :: s).getLast? = some w := hw
      have hmem : w ∈ b :: s := List.mem_of_mem_getLast? hw2
      rcases List.mem_cons.mp hx with rfl | hx2
      · exact (List.pairwise_cons.mp hp).1 w hmem
      · exact ih (List.pairwise_cons.mp hp).2 w hw2 x hx2

theorem rowLe_dKey {α : Type} {a b : Nat × ORow α} (h : rowLe a b)
    (hsoc : a.2.soc = b.2.soc) (htval : a.2.tval = b.2.tval) :
    dKey a.2.date ≤ dKey b.2.date := by
  unfold rowLe rKey at h
  rw [Prod.Lex.le_iff] at h
  rcases h with h1 | ⟨_, h2⟩
  · rw [hsoc] at h1
    exact absurd h1 (lt_irrefl _)
  · rw [Prod.Lex.le_iff] at h2
    rcases h2 with h3 | ⟨_, h4⟩
    · rw [htval] at h3
      exact absurd h3 (lt_irrefl _)
    · rw [Prod.Lex.le_iff] at h4
      rcases h4 with h5 | ⟨h6, _⟩
      · exact le_of_lt h5
      · exact le_of_eq h6

/-- C5 (amended): per (SOC code, value name) group of the long-shape rows,
exactly one row survives the date-based deduplication: the last row of the
group in the sorted order (the stable ascending sort on parsed date), whose
date key is maximal in the `NaT`-last order — so the chronologically latest
parsed date wins when every date in the group parsed, while a row whose
date failed to parse (a missing value, not an error) outranks every parsed
date. -/
theorem dateDedup_group_spec {α : Type} (rows : List (ORow α)) (s v : String)
    (hex : ∃ r ∈ rows, r.soc = s ∧ r.tval = v) :
    ∃ w, w ∈ rows ∧ w.soc = s ∧ w.tval = v ∧
      (dateDedup rows).filter (fun x => decide (x.soc = s ∧ x.tval = v)) = [w] ∧
      (∀ r ∈ rows, r.soc = s → r.tval = v → dKey r.date ≤ dKey w.date) ∧
      ((sortRows rows).filter (fun x => decide (x.soc = s ∧ x.tval = v))).getLast? =
        some w := by
  have hPQ : ∀ x : Nat × ORow α,
      (fun x : Nat × ORow α => decide (gkey x = (s, v))) x =
      ((fun y : ORow α => decide (y.soc = s ∧ y.tval = v)) ∘ Prod.snd) x := by
    intro x
    apply decide_eq_decide.mpr
    constructor
    · intro h
      exact ⟨congrArg Prod.fst h, congrArg Prod.snd h⟩
    · intro h
      unfold gkey
      rw [h.1, h.2]
  have hfilter_map : ∀ X : List (Nat × ORow α),
      (X.map Prod.snd).filter (fun y => decide (y.soc = s ∧ y.tval = v)) =
      (X.filter (fun x => decide (gkey x = (s, v)))).map Prod.snd := by
    intro X
    rw [List.filter_map Prod.snd X, List.filter_congr (fun x _ => (hPQ x).symm)]
  have hperm : List.Perm (sortRowsI rows.enum) rows.enum :=
    List.perm_insertionSort rowLe rows.enum
  have hsorted : (sortRowsI rows.enum).Pairwise rowLe :=
    List.sorted_insertionSort rowLe rows.enum
  obtain ⟨r, hr, hrs, hrv⟩ := hex
  have hidx : ∀ r2 : ORow α, r2 ∈ rows → ∃ x : Nat × ORow α, x ∈ rows.enum ∧ x.2 = r2 := by
    intro r2 hr2
    have hmm : r2 ∈ rows.enum.map Prod.snd := by
      rw [List.enum_map_snd]
      exact hr2
    obtain ⟨x, hx, hxr⟩ := List.mem_map.mp hmm
    exact ⟨x, hx, hxr⟩
  obtain ⟨x0, hx0, hx0r⟩ := hidx r hr
  have hx0P : (fun x : Nat × ORow α => decide (gkey x = (s, v))) x0 = true := by
    apply decide_eq_true
    unfold gkey
    rw [hx0r, hrs, hrv]
  have hx0f : x0 ∈ (sortRowsI rows.enum).filter (fun x => decide (gkey x = (s, v))) :=
    List.mem_filter.mpr ⟨hperm.mem_iff.mpr hx0, hx0P⟩
  have hfilne : (sortRowsI rows.enum).filter (fun x => decide (gkey x = (s, v))) ≠ [] := by
    intro he
    rw [he] at hx0f
    cases hx0f
  have hallk : ∀ x ∈ (sortRowsI rows.enum).filter (fun x => decide (gkey x = (s, v))),
      gkey x = (s, v) :=
    fun x hx => of_decide_eq_true (List.mem_filter.mp hx).2
  obtain ⟨w', hwlast, hwtail⟩ := tailOne_all_eq gkey (s, v) _ hfilne hallk
  have hw'f := List.mem_of_mem_getLast? hwlast
  have hw'enum : w' ∈ rows.enum := hperm.mem_iff.mp (List.mem_filter.mp hw'f).1
  have hw'rows : w'.2 ∈ rows := by
    have := List.mem_map_of_mem Prod.snd hw'enum
    rwa [List.enum_map_snd] at this
  have hw'k : gkey w' = (s, v) := hallk w' hw'f
  have hw's : w'.2.soc = s := congrArg Prod.fst hw'k
  have hw'v : w'.2.tval = v := congrArg Prod.snd hw'k
  refine ⟨w'.2, hw'rows, hw's, hw'v, ?_, ?_, ?_⟩
  · show ((tailOne gkey (sortRowsI rows.enum)).map Prod.snd).filter
        (fun y => decide (y.soc = s ∧ y.tval = v)) = [w'.2]
    rw [hfilter_map, filter_tailOne, hwtail]
    rfl
  · intro r2 hr2 hr2s hr2v
    obtain ⟨x2, hx2, hx2r⟩ := hidx r2 hr2
    have hx2P : (fun x : Nat × ORow α => decide (gkey x = (s, v))) x2 = true := by
      apply decide_eq_true
      unfold gkey
      rw [hx2r, hr2s, hr2v]
    have hx2f : x2 ∈ (sortRowsI rows.enum).filter (fun x => decide (gkey x = (s, v))) :=
      List.mem_filter.mpr ⟨hperm.mem_iff.mpr hx2, hx2P⟩
    have hle : rowLe x2 w' :=
      pairwise_le_getLast rowLe (fun a => le_refl (rKey a)) _
        (List.Pairwise.filter _ hsorted) w' hwlast x2 hx2f
    have hd := rowLe_dKey hle (by rw [hx2r, hr2s, hw's]) (by rw [hx2r, hr2v, hw'v])
    rwa [hx2r] at hd
  · show (((sortRowsI rows.enum).map Prod.snd).filter
        (fun y => decide (y.soc = s ∧ y.tval = v))).getLast? = some w'.2
    rw [hfilter_map, List.getLast?_map, hwlast]
    rfl

theorem dateDedup_group_spec_witness :
    ∃ w, w ∈ [(⟨"15-1251", "Achievement", "Importance", some 1, 30⟩ : ORow Nat),
        ⟨"15-1251", "Achievement", "Importance", some 2, 45⟩] ∧
      w.soc = "15-1251" ∧ w.tval = "Achievement" ∧
      (dateDedup [(⟨"15-1251", "Achievement", "Importance", some 1, 30⟩ : ORow Nat),
          ⟨"15-1251", "Achievement", "Importance", some 2, 45⟩]).filter
        (fun x => decide (x.soc = "15-1251" ∧ x.tval = "Achievement")) = [w] ∧
      (∀ r ∈ [(⟨"15-1251", "Achievement", "Importance", some 1, 30⟩ : ORow Nat),
          ⟨"15-1251", "Achievement", "Importance", some 2, 45⟩],
        r.soc = "15-1251" → r.tval = "Achievement" → dKey r.date ≤ dKey w.date) ∧
      ((sortRows [(⟨"15-1251", "Achievement", "Importance", some 1, 30⟩ : ORow Nat),
          ⟨"15-1251", "Achievement", "Importance", some 2, 45⟩]).filter
        (fun x => decide (x.soc = "15-1251" ∧ x.tval = "Achievement"))).getLast? = some w :=
  dateDedup_group_spec _ "15-1251" "Achievement"
    ⟨⟨"15-1251", "Achievement", "Importance", some 1, 30⟩, by simp, rfl, rfl⟩

end EWV
